import Mathlib

/-!
Verification of the placeholder-substitution engine and the formatting and
map-building helpers of `gerador_termos_fundopem.py`.

The Python source is embedded shallowly: run text is a `List Char`, a
paragraph is a list of runs, the in-place mutation of run texts becomes a
function returning the new run list, and the unbounded `while` loop of
`replace_in_paragraph` takes explicit fuel (returning `none` when the loop
has not finished).  Line numbers in the comments refer to
`gerador_termos_fundopem.py`.
-/

set_option linter.unusedVariables false

namespace Fundopem

/-- A run of a docx paragraph: a span of text sharing one style.  The style
is opaque to the substitution engine and is modelled as a numeric tag
(python-docx `Run`, whose `text` field is the only thing the code writes). -/
structure Run where
  text : List Char
  style : Nat
deriving DecidableEq

/-- A paragraph is an ordered list of runs (python-docx `Paragraph.runs`). -/
abbrev Paragraph := List Run

/-- Concatenated text of a paragraph, as in
`full_text = "".join(r.text for r in runs)` (line 111) and
`paragraph.text`. -/
def runsText (runs : Paragraph) : List Char :=
  (runs.map Run.text).flatten

/-- Total text length of a list of runs, as in the
`sum(len(r.text) for r in runs[:idx])` bookkeeping of lines 130-131. -/
def lenSum (runs : List Run) : Nat :=
  (runs.map fun r => r.text.length).sum

/-- Index of the first occurrence of `key` as a substring of `s`, as the
Python `full_text.find(placeholder)` of line 114 (`none` for the `-1`
not-found result). -/
def listFind? (key : List Char) (s : List Char) : Option Nat :=
  if key.isPrefixOf s then some 0
  else
    match s with
    | [] => none
    | _ :: t => (listFind? key t).map (· + 1)

/-- Python substring containment `key in s` (lines 105 and 109). -/
def containsSub (key s : List Char) : Bool :=
  (listFind? key s).isSome

/-- The run-walk of lines 118-127 of the source: find the indices of the
runs containing the start and the end offset of the found placeholder.
`i` is the index of the head of the fourth argument within the full run
list, `cur` the total text length of the runs already passed, and `sIdx`
the `run_start_idx` found so far (`none` encodes the `-1` sentinel).
Returns `(run_start_idx, run_end_idx)`; the `none` results model the
fall-through where the Python code would go on to index the list with a
left-over `-1` sentinel (an unreachable defect path for a nonempty key
that occurs in the text; spec section 7 calls it a logic defect). -/
def findRunIdxGo (startPos endPos : Nat) : Nat → Nat → Option Nat → List Run → Option (Nat × Nat)
  | _, _, _, [] => none
  | i, cur, sIdx, r :: rest =>
    let next := cur + r.text.length
    let sIdx' := if sIdx = none ∧ cur ≤ startPos ∧ startPos < next then some i else sIdx
    if endPos > cur ∧ endPos ≤ next then
      match sIdx' with
      | some si => some (si, i)
      | none => none
    else
      findRunIdxGo startPos endPos (i + 1) next sIdx' rest

/-- Entry point of the run-walk of lines 118-127. -/
def findRunIdx (runs : List Run) (startPos endPos : Nat) : Option (Nat × Nat) :=
  findRunIdxGo startPos endPos 0 0 none runs

/-- Lines 149-155: distribute successive chunks of the pending replacement
text over the intermediate runs, each chunk sized to the original length
of that run; returns the new intermediate runs and the undistributed
remainder of the replacement text. -/
def distributeMid (pending : List Char) : List Run → (List Run × List Char)
  | [] => ([], pending)
  | r :: rest =>
    let space := r.text.length
    let out := distributeMid (pending.drop space) rest
    ({ r with text := pending.take space } :: out.1, out.2)

/-- One pass of the body of the `while` loop of `replace_in_paragraph`
(lines 109-160): locate the first occurrence of `key` in the concatenated
paragraph text and splice `value` over it, rebuilding the run list.  The
two branches are the single-run splice of lines 133-136 and the multi-run
distribution of lines 139-160. -/
def spliceOne (key value : List Char) (runs : Paragraph) : Option Paragraph :=
  match listFind? key (runsText runs) with
  | none => none
  | some startPos =>
    let endPos := startPos + key.length
    match findRunIdx runs startPos endPos with
    | none => none
    | some (si, ei) =>
      match runs[si]?, runs[ei]? with
      | some rs, some re =>
        let offStart := startPos - lenSum (runs.take si)
        let offEnd := endPos - lenSum (runs.take ei)
        if si = ei then
          some (runs.take si ++
            [{ rs with text := rs.text.take offStart ++ value ++ rs.text.drop offEnd }] ++
            runs.drop (si + 1))
        else
          let space := rs.text.length - offStart
          let chunk := value.take space
          let dist := distributeMid (value.drop space) ((runs.drop (si + 1)).take (ei - (si + 1)))
          some (runs.take si ++
            [{ rs with text := rs.text.take offStart ++ chunk }] ++
            dist.1 ++
            [{ re with text := dist.2 ++ re.text.drop offEnd }] ++
            runs.drop (ei + 1))
      | _, _ => none

/-- The `while placeholder in paragraph.text` loop of lines 109-160, with
explicit fuel: `none` means the loop has not finished within `fuel`
splices (the Python loop is unbounded and can in fact run forever, see
claim C5). -/
def replaceLoop (key value : List Char) : Nat → Paragraph → Option Paragraph
  | 0, runs => if containsSub key (runsText runs) then none else some runs
  | fuel + 1, runs =>
    if containsSub key (runsText runs) then
      match spliceOne key value runs with
      | none => none
      | some runs' => replaceLoop key value fuel runs'
    else some runs

/-- Body of `replace_in_paragraph` (lines 103-160): process every
`(placeholder, value)` pair of the mapping, in mapping order (the
`if placeholder not in paragraph.text: continue` of line 105 is subsumed
by the loop guard). -/
def replaceInParagraph (fuel : Nat) : List (List Char × List Char) → Paragraph → Option Paragraph
  | [], runs => some runs
  | (k, v) :: rest, runs =>
    match replaceLoop k v fuel runs with
    | none => none
    | some runs' => replaceInParagraph fuel rest runs'

/-- Evaluation of an `Option`-returning function on every element of a
list, mirroring the `for` loops of lines 163-170. -/
def optionMapAll (f : α → Option β) : List α → Option (List β)
  | [] => some []
  | a :: l =>
    match f a, optionMapAll f l with
    | some b, some l' => some (b :: l')
    | _, _ => none

/-- A docx document as `docx_replace` sees it: the body paragraphs plus
the tables (table → rows → cells → paragraphs), the exact traversal scope
of lines 162-170. -/
structure Document where
  paragraphs : List Paragraph
  tables : List (List (List (List Paragraph)))
deriving DecidableEq

/-- The function `docx_replace` (lines 95-171): early return of the
unmodified document on an empty mapping (lines 100-101), otherwise
substitution in every body paragraph and in every paragraph of every
table cell. -/
def docxReplace (fuel : Nat) (mapping : List (List Char × List Char)) (doc : Document) :
    Option Document :=
  if mapping.isEmpty then some doc
  else
    match optionMapAll (replaceInParagraph fuel mapping) doc.paragraphs,
          optionMapAll (optionMapAll (optionMapAll (optionMapAll
            (replaceInParagraph fuel mapping)))) doc.tables with
    | some ps, some ts => some ⟨ps, ts⟩
    | _, _ => none

/-- Span data of the splice `spliceOne` performs: the pair
`(run_start_idx, run_end_idx)` of runs overlapped by the first occurrence
of `key`, computed exactly as inside `spliceOne`. -/
def spliceSpan (key : List Char) (runs : Paragraph) : Option (Nat × Nat) :=
  match listFind? key (runsText runs) with
  | none => none
  | some startPos => findRunIdx runs startPos (startPos + key.length)

/-! ### Basic lemmas about the text search -/

theorem listFind?_le_length (key : List Char) :
    ∀ (s : List Char) (i : Nat), listFind? key s = some i → i ≤ s.length := by
  intro s
  induction s with
  | nil =>
    intro i h
    unfold listFind? at h
    split at h
    · simp_all
    · simp at h
  | cons c t ih =>
    intro i h
    unfold listFind? at h
    split at h
    · simp only [Option.some.injEq] at h
      omega
    · simp only [Option.map_eq_some'] at h
      obtain ⟨j, hj, rfl⟩ := h
      have := ih j hj
      simp
      omega

theorem listFind?_isPrefixOf (key : List Char) :
    ∀ (s : List Char) (i : Nat), listFind? key s = some i →
      key.isPrefixOf (s.drop i) = true := by
  intro s
  induction s with
  | nil =>
    intro i h
    unfold listFind? at h
    split at h
    · simp_all
    · simp at h
  | cons c t ih =>
    intro i h
    unfold listFind? at h
    split at h
    · rename_i hp
      obtain rfl : i = 0 := by simp_all
      simpa using hp
    · simp only [Option.map_eq_some'] at h
      obtain ⟨j, hj, rfl⟩ := h
      simpa using ih j hj

theorem listFind?_bound (key s : List Char) (i : Nat) (h : listFind? key s = some i) :
    i + key.length ≤ s.length := by
  have h1 := listFind?_le_length key s i h
  have h2 := listFind?_isPrefixOf key s i h
  have h3 : key <+: s.drop i := List.isPrefixOf_iff_prefix.mp h2
  have h4 := h3.length_le
  simp at h4
  omega

theorem containsSub_iff (key s : List Char) :
    containsSub key s = true ↔ ∃ i, listFind? key s = some i := by
  simp [containsSub, Option.isSome_iff_exists]

/-! ### Lemmas about the run-index walk of lines 118-127 -/

theorem lenSum_append (a b : List Run) : lenSum (a ++ b) = lenSum a + lenSum b := by
  simp [lenSum]

theorem lenSum_cons (r : Run) (l : List Run) :
    lenSum (r :: l) = r.text.length + lenSum l := by
  simp [lenSum]

theorem runsText_append (a b : List Run) :
    runsText (a ++ b) = runsText a ++ runsText b := by
  simp [runsText]

theorem runsText_cons (r : Run) (l : List Run) :
    runsText (r :: l) = r.text ++ runsText l := by
  simp [runsText]

theorem runsText_length (l : List Run) : (runsText l).length = lenSum l := by
  simp [runsText, lenSum]
  rfl

/-- Soundness of the run walk: when it returns a pair of indices, both
index real runs, the start index is at most the end index, the start
offset falls in the start run under the half-open test of line 122, and
the end offset falls in the end run under the half-closed test of
line 124. -/
theorem findRunIdxGo_spec (startPos endPos : Nat) :
    ∀ (rest pre : List Run) (sIdx : Option Nat) (si ei : Nat),
      (∀ j, sIdx = some j → j < pre.length ∧
        lenSum ((pre ++ rest).take j) ≤ startPos ∧
        ∃ rj, (pre ++ rest)[j]? = some rj ∧
          startPos < lenSum ((pre ++ rest).take j) + rj.text.length) →
      (sIdx = none → lenSum pre ≤ startPos) →
      findRunIdxGo startPos endPos pre.length (lenSum pre) sIdx rest = some (si, ei) →
      ∃ rs re, (pre ++ rest)[si]? = some rs ∧ (pre ++ rest)[ei]? = some re ∧
        si ≤ ei ∧
        lenSum ((pre ++ rest).take si) ≤ startPos ∧
        startPos < lenSum ((pre ++ rest).take si) + rs.text.length ∧
        lenSum ((pre ++ rest).take ei) < endPos ∧
        endPos ≤ lenSum ((pre ++ rest).take ei) + re.text.length := by
  intro rest
  induction rest with
  | nil =>
    intro pre sIdx si ei hinv hnone h
    simp [findRunIdxGo] at h
  | cons r rest ih =>
    intro pre sIdx si ei hinv hnone h
    rw [findRunIdxGo] at h
    by_cases hend : endPos > lenSum pre ∧ endPos ≤ lenSum pre + r.text.length
    · rw [if_pos hend] at h
      have hpre : (pre ++ r :: rest)[pre.length]? = some r := by
        rw [List.getElem?_append_right (Nat.le_refl _)]
        simp
      have htake : (pre ++ r :: rest).take pre.length = pre := by
        rw [List.take_left' rfl]
      by_cases hset : sIdx = none ∧ lenSum pre ≤ startPos ∧
          startPos < lenSum pre + r.text.length
      · rw [if_pos hset] at h
        simp only at h
        obtain ⟨rfl, rfl⟩ : pre.length = si ∧ pre.length = ei := by
          cases h; exact ⟨rfl, rfl⟩
        exact ⟨r, r, hpre, hpre, Nat.le_refl _, by rw [htake]; exact hset.2.1,
          by rw [htake]; exact hset.2.2, by rw [htake]; exact hend.1,
          by rw [htake]; exact hend.2⟩
      · rw [if_neg hset] at h
        cases hs : sIdx with
        | none => rw [hs] at h; simp at h
        | some j =>
          rw [hs] at h
          simp only at h
          obtain ⟨rfl, rfl⟩ : j = si ∧ pre.length = ei := by
            cases h; exact ⟨rfl, rfl⟩
          obtain ⟨hjlt, hjle, rj, hrj, hjr⟩ := hinv _ hs
          exact ⟨rj, r, hrj, hpre, Nat.le_of_lt hjlt, hjle, hjr,
            by rw [htake]; exact hend.1, by rw [htake]; exact hend.2⟩
    · rw [if_neg hend] at h
      have hassoc : (pre ++ [r]) ++ rest = pre ++ r :: rest := by simp
      have hlen : (pre ++ [r]).length = pre.length + 1 := by simp
      have hsum : lenSum (pre ++ [r]) = lenSum pre + r.text.length := by
        simp [lenSum_append, lenSum_cons, lenSum]
      have h' : findRunIdxGo startPos endPos (pre ++ [r]).length (lenSum (pre ++ [r]))
          (if sIdx = none ∧ lenSum pre ≤ startPos ∧
            startPos < lenSum pre + r.text.length then some pre.length else sIdx)
          rest = some (si, ei) := by
        rw [hlen, hsum]; exact h
      have hres := ih (pre ++ [r])
        (if sIdx = none ∧ lenSum pre ≤ startPos ∧
          startPos < lenSum pre + r.text.length then some pre.length else sIdx)
        si ei ?_ ?_ h'
      · rw [hassoc] at hres; exact hres
      · intro j hj
        rw [hassoc]
        split at hj
        · rename_i hcond
          obtain rfl : pre.length = j := by cases hj; rfl
          refine ⟨by simp, ?_, r, ?_, ?_⟩
          · rw [List.take_left' rfl]; exact hcond.2.1
          · rw [List.getElem?_append_right (Nat.le_refl _)]; simp
          · rw [List.take_left' rfl]; exact hcond.2.2
        · obtain ⟨hjlt, hrest⟩ := hinv _ hj
          exact ⟨by simp; omega, hrest⟩
      · intro hn
        split at hn
        · simp at hn
        · rename_i hcond
          rw [hsum]
          cases hs : sIdx with
          | some j => rw [hs] at hn; simp at hn
          | none =>
            have := hnone hs
            rw [hs] at hcond
            simp only [true_and] at hcond
            push_neg at hcond
            exact hcond this

/-- Totality of the run walk: for offsets `0 ≤ startPos < endPos` with
`endPos` within the total text length, the walk finds both indices. -/
theorem findRunIdxGo_isSome (startPos endPos : Nat) :
    ∀ (rest pre : List Run) (sIdx : Option Nat),
      (sIdx = none → lenSum pre ≤ startPos) →
      startPos < endPos →
      lenSum pre < endPos →
      endPos ≤ lenSum pre + lenSum rest →
      (findRunIdxGo startPos endPos pre.length (lenSum pre) sIdx rest).isSome = true := by
  intro rest
  induction rest with
  | nil =>
    intro pre sIdx hnone hse h1 h2
    rw [show lenSum ([] : List Run) = 0 from rfl] at h2
    omega
  | cons r rest ih =>
    intro pre sIdx hnone hse h1 h2
    rw [findRunIdxGo]
    by_cases hend : endPos > lenSum pre ∧ endPos ≤ lenSum pre + r.text.length
    · rw [if_pos hend]
      cases hs : sIdx with
      | some j => simp
      | none =>
        have hc : (none : Option Nat) = none ∧ lenSum pre ≤ startPos ∧
            startPos < lenSum pre + r.text.length := ⟨rfl, hnone hs, by omega⟩
        rw [if_pos hc]
        simp
    · rw [if_neg hend]
      have hsum : lenSum (pre ++ [r]) = lenSum pre + r.text.length := by
        simp [lenSum_append, lenSum_cons, lenSum]
      have hlen : (pre ++ [r]).length = pre.length + 1 := by simp
      have h2' : lenSum (pre ++ [r]) < endPos := by
        rw [hsum]; omega
      have h3' : endPos ≤ lenSum (pre ++ [r]) + lenSum rest := by
        rw [hsum]; rw [lenSum_cons] at h2; omega
      have := ih (pre ++ [r])
        (if sIdx = none ∧ lenSum pre ≤ startPos ∧
          startPos < lenSum pre + r.text.length then some pre.length else sIdx)
        ?_ hse h2' h3'
      · rw [hlen, hsum] at this
        exact this
      · intro hn
        split at hn
        · simp at hn
        · rename_i hcond
          rw [hsum]
          cases hs : sIdx with
          | some j => rw [hs] at hn; simp at hn
          | none =>
            have := hnone hs
            rw [hs] at hcond
            simp only [true_and] at hcond
            push_neg at hcond
            exact hcond this

/-! ### Decomposition helpers -/

theorem getElem?_lt_length (l : List Run) (n : Nat) (r : Run) (h : l[n]? = some r) :
    n < l.length := by
  by_contra hc
  push_neg at hc
  rw [List.getElem?_eq_none hc] at h
  simp at h

theorem drop_eq_cons_of_getElem? (l : List Run) (n : Nat) (r : Run) (h : l[n]? = some r) :
    l.drop n = r :: l.drop (n + 1) := by
  have hn : n < l.length := getElem?_lt_length l n r h
  have hr : l[n] = r := by
    rw [List.getElem?_eq_getElem hn] at h
    exact Option.some.inj h
  rw [List.drop_eq_getElem_cons hn, hr]

theorem take_cons_drop (l : List Run) (n : Nat) (r : Run) (h : l[n]? = some r) :
    l.take n ++ r :: l.drop (n + 1) = l := by
  rw [← drop_eq_cons_of_getElem? l n r h, List.take_append_drop]

theorem getElem?_take_append (l rest : List Run) (n j : Nat) (hj : j < n)
    (hn : n ≤ l.length) : (l.take n ++ rest)[j]? = l[j]? := by
  rw [List.getElem?_append_left (by rw [List.length_take]; omega), List.getElem?_take]
  simp [hj]

theorem getElem?_drop_append (l u : List Run) (m j : Nat) (hu : u.length = m)
    (hj : m ≤ j) : (u ++ l.drop m)[j]? = l[j]? := by
  rw [List.getElem?_append_right (by omega), List.getElem?_drop]
  congr 1
  omega

theorem runsText_singleton (r : Run) : runsText [r] = r.text := by
  simp [runsText]

/-! ### Lemmas about the chunk distribution of lines 149-155 -/

theorem distributeMid_styles : ∀ (l : List Run) (v : List Char),
    ((distributeMid v l).1).map Run.style = l.map Run.style := by
  intro l
  induction l with
  | nil => intro v; rfl
  | cons r rest ih => intro v; simp [distributeMid, ih]

theorem distributeMid_text : ∀ (l : List Run) (v : List Char),
    runsText (distributeMid v l).1 ++ (distributeMid v l).2 = v := by
  intro l
  induction l with
  | nil => intro v; simp [distributeMid, runsText]
  | cons r rest ih =>
    intro v
    simp only [distributeMid, runsText_cons]
    rw [List.append_assoc, ih]
    exact List.take_append_drop _ v

theorem distributeMid_length (v : List Char) (l : List Run) :
    (distributeMid v l).1.length = l.length := by
  simpa using congrArg List.length (distributeMid_styles l v)

/-! ### Top-level specifications of the run walk -/

theorem findRunIdx_spec (runs : List Run) (startPos endPos si ei : Nat)
    (h : findRunIdx runs startPos endPos = some (si, ei)) :
    ∃ rs re, runs[si]? = some rs ∧ runs[ei]? = some re ∧ si ≤ ei ∧
      lenSum (runs.take si) ≤ startPos ∧
      startPos < lenSum (runs.take si) + rs.text.length ∧
      lenSum (runs.take ei) < endPos ∧
      endPos ≤ lenSum (runs.take ei) + re.text.length := by
  have hmain := findRunIdxGo_spec startPos endPos runs [] none si ei
    (by intro j hj; simp at hj) (by intro _; exact Nat.zero_le _) h
  simpa using hmain

theorem findRunIdx_isSome (runs : List Run) (startPos endPos : Nat)
    (h1 : startPos < endPos) (h2 : endPos ≤ lenSum runs) :
    (findRunIdx runs startPos endPos).isSome = true := by
  have h0 : lenSum ([] : List Run) = 0 := rfl
  exact findRunIdxGo_isSome startPos endPos runs [] none
    (fun _ => Nat.zero_le _) h1 (by rw [h0]; omega) (by rw [h0]; omega)

/-! ### Master anatomy of one splice -/

/-- Anatomy of one pass of the `while` body: run styles are preserved, the
length of the concatenated text changes by exactly the difference between
value and key length, and every run strictly outside the replaced run
span keeps its text and style untouched. -/
theorem spliceOne_spec (key value : List Char) (runs runs' : Paragraph)
    (h : spliceOne key value runs = some runs') :
    runs'.map Run.style = runs.map Run.style ∧
    (runsText runs').length + key.length = (runsText runs).length + value.length ∧
    ∀ si ei, spliceSpan key runs = some (si, ei) →
      ∀ j, j < si ∨ ei < j → runs'[j]? = runs[j]? := by
  simp only [spliceOne] at h
  split at h
  · simp at h
  · rename_i s hfind
    split at h
    · simp at h
    · rename_i si ei hidx
      split at h
      · rename_i rsm rem hrsm hrem
        obtain ⟨rs, re, hrs0, hre0, hsie, hA1, hA2, hB1, hB2⟩ :=
          findRunIdx_spec runs s (s + key.length) si ei hidx
        obtain rfl : rs = rsm := by rw [hrs0] at hrsm; exact Option.some.inj hrsm
        obtain rfl : re = rem := by rw [hre0] at hrem; exact Option.some.inj hrem
        have hsilen := getElem?_lt_length runs si rs hrs0
        have heilen := getElem?_lt_length runs ei re hre0
        have hspan : ∀ si' ei', spliceSpan key runs = some (si', ei') →
            si = si' ∧ ei = ei' := by
          intro si' ei' hsp
          unfold spliceSpan at hsp
          simp only [hfind] at hsp
          rw [hidx, Option.some.injEq, Prod.mk.injEq] at hsp
          exact hsp
        by_cases hcase : si = ei
        · subst hcase
          rw [if_pos rfl] at h
          have hrr : rs = re := by rw [hrs0] at hre0; exact Option.some.inj hre0
          subst hrr
          obtain rfl : _ = runs' := Option.some.inj h
          have hdecomp := take_cons_drop runs si rs hrs0
          refine ⟨?_, ?_, ?_⟩
          · conv_rhs => rw [← hdecomp]
            simp
          · conv_rhs => rw [← hdecomp, runsText_append, runsText_cons]
            rw [runsText_append, runsText_append, runsText_singleton]
            simp only [List.length_append, List.length_take, List.length_drop,
              runsText_length]
            omega
          · intro si' ei' hsp j hj
            obtain ⟨rfl, rfl⟩ := hspan si' ei' hsp
            rcases hj with hj | hj
            · rw [List.append_assoc, getElem?_take_append runs _ si j hj (by omega)]
            · rw [getElem?_drop_append runs _ (si + 1) j
                (by simp [List.length_take]; omega) (by omega)]
        · rw [if_neg hcase] at h
          have hsilt : si < ei := Nat.lt_of_le_of_ne hsie hcase
          obtain rfl : _ = runs' := Option.some.inj h
          have hmidlen : ((runs.drop (si + 1)).take (ei - (si + 1))).length
              = ei - (si + 1) := by
            rw [List.length_take, List.length_drop]
            omega
          have hdrop : runs.drop (si + 1) =
              (runs.drop (si + 1)).take (ei - (si + 1)) ++ re :: runs.drop (ei + 1) := by
            conv_lhs => rw [← List.take_append_drop (ei - (si + 1)) (runs.drop (si + 1))]
            congr 1
            rw [List.drop_drop]
            have he : si + 1 + (ei - (si + 1)) = ei := by omega
            rw [he]
            exact drop_eq_cons_of_getElem? runs ei re hre0
          have hfull : runs = runs.take si ++
              rs :: ((runs.drop (si + 1)).take (ei - (si + 1)) ++ re :: runs.drop (ei + 1)) := by
            conv_lhs => rw [← take_cons_drop runs si rs hrs0]
            rw [← hdrop]
          have htakeei : runs.take ei =
              runs.take si ++ rs :: (runs.drop (si + 1)).take (ei - (si + 1)) := by
            have hlen2 : (runs.take si ++
                rs :: (runs.drop (si + 1)).take (ei - (si + 1))).length = ei := by
              simp only [List.length_append, List.length_cons, List.length_take,
                List.length_drop]
              omega
            conv_lhs => rw [hfull]
            rw [show runs.take si ++
                rs :: ((runs.drop (si + 1)).take (ei - (si + 1)) ++ re :: runs.drop (ei + 1)) =
              (runs.take si ++ rs :: (runs.drop (si + 1)).take (ei - (si + 1))) ++
                re :: runs.drop (ei + 1) by simp]
            exact List.take_left' hlen2
          have hcum : lenSum (runs.take ei) = lenSum (runs.take si) + rs.text.length +
              lenSum ((runs.drop (si + 1)).take (ei - (si + 1))) := by
            rw [htakeei, lenSum_append, lenSum_cons]
            omega
          have hdistlen := congrArg List.length
            (distributeMid_text ((runs.drop (si + 1)).take (ei - (si + 1)))
              (value.drop (rs.text.length - (s - lenSum (runs.take si)))))
          rw [List.length_append] at hdistlen
          have hd1len := distributeMid_length
            (value.drop (rs.text.length - (s - lenSum (runs.take si))))
            ((runs.drop (si + 1)).take (ei - (si + 1)))
          refine ⟨?_, ?_, ?_⟩
          · conv_rhs => rw [hfull]
            simp [distributeMid_styles]
          · conv_rhs => rw [hfull, runsText_append, runsText_cons, runsText_append,
              runsText_cons]
            rw [runsText_append, runsText_append, runsText_append, runsText_append,
              runsText_singleton, runsText_singleton]
            simp only [List.length_append, List.length_take, List.length_drop,
              runsText_length] at hdistlen ⊢
            omega
          · intro si' ei' hsp j hj
            obtain ⟨rfl, rfl⟩ := hspan si' ei' hsp
            rcases hj with hj | hj
            · simp only [List.append_assoc]
              rw [getElem?_take_append runs _ si j hj (Nat.le_of_lt hsilen)]
            · rw [getElem?_drop_append runs _ (ei + 1) j ?_ (by omega)]
              simp only [List.length_append, List.length_cons, List.length_take,
                List.length_drop, List.length_nil, hd1len]
              omega
      · simp at h

/-! ### Loop-level lemmas -/

/-- Totality of one splice, for a nonempty key that occurs in the text. -/
theorem spliceOne_isSome (key value : List Char) (runs : Paragraph)
    (hk : key ≠ []) (hc : containsSub key (runsText runs) = true) :
    (spliceOne key value runs).isSome = true := by
  obtain ⟨s, hfind⟩ := (containsSub_iff key (runsText runs)).mp hc
  have hbound := listFind?_bound key (runsText runs) s hfind
  rw [runsText_length] at hbound
  have hklen : 0 < key.length := List.length_pos.mpr hk
  have hidx : (findRunIdx runs s (s + key.length)).isSome = true :=
    findRunIdx_isSome runs s (s + key.length) (by omega) (by omega)
  obtain ⟨⟨si, ei⟩, hidx'⟩ := Option.isSome_iff_exists.mp hidx
  obtain ⟨rs, re, hrs, hre, _, _, _, _, _⟩ :=
    findRunIdx_spec runs s (s + key.length) si ei hidx'
  simp only [spliceOne, hfind, hidx', hrs, hre]
  split <;> simp

/-- When the `while` loop for one key exits normally, the key no longer
occurs in the concatenated paragraph text: the loop guard of line 109. -/
theorem replaceLoop_not_contains (key value : List Char) :
    ∀ (fuel : Nat) (runs out : Paragraph), replaceLoop key value fuel runs = some out →
      containsSub key (runsText out) = false := by
  intro fuel
  induction fuel with
  | zero =>
    intro runs out h
    rw [replaceLoop] at h
    split at h
    · simp at h
    · obtain rfl : runs = out := Option.some.inj h
      rename_i hc
      simpa using hc
  | succ n ih =>
    intro runs out h
    rw [replaceLoop] at h
    split at h
    · split at h
      · simp at h
      · exact ih _ _ h
    · obtain rfl : runs = out := Option.some.inj h
      rename_i hc
      simpa using hc

/-- The `while` loop preserves the list of run styles (so also the number
and order of runs). -/
theorem replaceLoop_styles (key value : List Char) :
    ∀ (fuel : Nat) (runs out : Paragraph), replaceLoop key value fuel runs = some out →
      out.map Run.style = runs.map Run.style := by
  intro fuel
  induction fuel with
  | zero =>
    intro runs out h
    rw [replaceLoop] at h
    split at h
    · simp at h
    · obtain rfl : runs = out := Option.some.inj h
      rfl
  | succ n ih =>
    intro runs out h
    rw [replaceLoop] at h
    split at h
    · split at h
      · simp at h
      · rename_i runs' hsplice
        rw [ih _ _ h, (spliceOne_spec key value runs runs' hsplice).1]
    · obtain rfl : runs = out := Option.some.inj h
      rfl

/-- The whole per-paragraph pass preserves the list of run styles. -/
theorem replaceInParagraph_styles (fuel : Nat) :
    ∀ (mapping : List (List Char × List Char)) (runs out : Paragraph),
      replaceInParagraph fuel mapping runs = some out →
      out.map Run.style = runs.map Run.style := by
  intro mapping
  induction mapping with
  | nil =>
    intro runs out h
    obtain rfl : runs = out := Option.some.inj h
    rfl
  | cons kv rest ih =>
    intro runs out h
    obtain ⟨k, v⟩ := kv
    rw [replaceInParagraph] at h
    split at h
    · simp at h
    · rename_i runs' hloop
      rw [ih _ _ h, replaceLoop_styles k v fuel runs runs' hloop]

/-- Characterisation of `optionMapAll` successes as an elementwise
relation. -/
theorem optionMapAll_forall₂ {α β : Type} (f : α → Option β) :
    ∀ (l : List α) (l' : List β), optionMapAll f l = some l' →
      List.Forall₂ (fun a b => f a = some b) l l' := by
  intro l
  induction l with
  | nil =>
    intro l' h
    obtain rfl : [] = l' := Option.some.inj h
    exact List.Forall₂.nil
  | cons a t ih =>
    intro l' h
    rw [optionMapAll] at h
    split at h
    · rename_i b t' hb ht
      obtain rfl : b :: t' = l' := Option.some.inj h
      exact List.Forall₂.cons hb (ih t' ht)
    · simp at h

/-- Termination of the `while` loop when the replacement value is strictly
shorter than the key: each splice strictly shrinks the concatenated text,
so text length bounds the number of iterations. -/
theorem replaceLoop_isSome_of_short (key value : List Char)
    (hlt : value.length < key.length) :
    ∀ (fuel : Nat) (runs : Paragraph), (runsText runs).length < fuel →
      (replaceLoop key value fuel runs).isSome = true := by
  intro fuel
  induction fuel with
  | zero => intro runs h; omega
  | succ n ih =>
    intro runs h
    rw [replaceLoop]
    split
    · rename_i hc
      have hk : key ≠ [] := by
        intro he
        rw [he] at hlt
        simp at hlt
      have hs := spliceOne_isSome key value runs hk (by simpa using hc)
      obtain ⟨runs', hruns'⟩ := Option.isSome_iff_exists.mp hs
      simp only [hruns']
      apply ih
      have hlen := (spliceOne_spec key value runs runs' hruns').2.1
      omega
    · simp

/-! ### A diverging instance of the while loop -/

theorem listFind?_here (key s : List Char) (h : key.isPrefixOf s = true) :
    listFind? key s = some 0 := by
  rw [listFind?.eq_def, if_pos h]

theorem listFind?_cons_of_ne (key : List Char) (c : Char) (t : List Char)
    (h : key.isPrefixOf (c :: t) = false) :
    listFind? key (c :: t) = (listFind? key t).map (· + 1) := by
  rw [listFind?.eq_def, if_neg (by simp [h])]

/-- Texts of the shape `"b"*m ++ "aab" ++ "a"*j`. -/
def sX (m j : Nat) : List Char :=
  List.replicate m 'b' ++ 'a' :: 'a' :: 'b' :: List.replicate j 'a'

/-- Texts of the shape `"b"*m ++ "abb" ++ "a"*j`. -/
def sY (m j : Nat) : List Char :=
  List.replicate m 'b' ++ 'a' :: 'b' :: 'b' :: List.replicate j 'a'

theorem find_sX (m j : Nat) : listFind? ['a', 'b'] (sX m j) = some (m + 1) := by
  induction m with
  | zero =>
    rw [show sX 0 j = 'a' :: 'a' :: 'b' :: List.replicate j 'a' from by simp [sX]]
    rw [listFind?_cons_of_ne _ _ _ (by simp [List.isPrefixOf])]
    rw [listFind?_here _ _ (by simp [List.isPrefixOf])]
    rfl
  | succ m ih =>
    rw [show sX (m + 1) j = 'b' :: sX m j from by simp [sX, List.replicate_succ]]
    rw [listFind?_cons_of_ne _ _ _ (by simp [List.isPrefixOf]), ih]
    rfl

theorem find_sY (m j : Nat) : listFind? ['a', 'b'] (sY m j) = some m := by
  induction m with
  | zero =>
    rw [show sY 0 j = 'a' :: 'b' :: 'b' :: List.replicate j 'a' from by simp [sY]]
    rw [listFind?_here _ _ (by simp [List.isPrefixOf])]
  | succ m ih =>
    rw [show sY (m + 1) j = 'b' :: sY m j from by simp [sY, List.replicate_succ]]
    rw [listFind?_cons_of_ne _ _ _ (by simp [List.isPrefixOf]), ih]
    rfl

/-- Splice behaviour on a single-run paragraph: the classic
prefix-value-suffix splice. -/
theorem spliceOne_single (t : List Char) (st : Nat) (key value : List Char) (s : Nat)
    (hfind : listFind? key t = some s) (hk : key ≠ []) :
    spliceOne key value [⟨t, st⟩] =
      some [⟨t.take s ++ value ++ t.drop (s + key.length), st⟩] := by
  have hrt : runsText [(⟨t, st⟩ : Run)] = t := by simp [runsText]
  have hbound : s + key.length ≤ t.length := listFind?_bound key t s hfind
  have hklen : 0 < key.length := List.length_pos.mpr hk
  have hidx : findRunIdx [(⟨t, st⟩ : Run)] s (s + key.length) = some (0, 0) := by
    simp only [findRunIdx, findRunIdxGo]
    rw [if_pos (show s + key.length > 0 ∧ s + key.length ≤ 0 + t.length from
      ⟨by omega, by omega⟩)]
    rw [if_pos (show True ∧ 0 ≤ s ∧ s < 0 + t.length from
      ⟨trivial, Nat.zero_le _, by omega⟩)]
  simp [spliceOne, hrt, hfind, hidx, lenSum]

theorem step_sX (m j : Nat) :
    spliceOne ['a', 'b'] ['b', 'b', 'a', 'a'] [⟨sX m j, 0⟩] =
      some [⟨sY m (j + 2), 0⟩] := by
  rw [spliceOne_single (sX m j) 0 _ _ (m + 1) (find_sX m j) (by simp)]
  have h1 : (sX m j).take (m + 1) = List.replicate m 'b' ++ ['a'] := by
    rw [sX, show m + 1 = (List.replicate m 'b').length + 1 by simp, List.take_append]
    rfl
  have h2 : (sX m j).drop (m + 1 + ['a', 'b'].length) = List.replicate j 'a' := by
    rw [sX, show m + 1 + ['a', 'b'].length = (List.replicate m 'b').length + 3 by simp,
      List.drop_append]
    rfl
  rw [h1, h2, sY]
  simp [List.replicate_succ, List.append_assoc]

theorem step_sY (m j : Nat) :
    spliceOne ['a', 'b'] ['b', 'b', 'a', 'a'] [⟨sY m j, 0⟩] =
      some [⟨sX (m + 2) j, 0⟩] := by
  rw [spliceOne_single (sY m j) 0 _ _ m (find_sY m j) (by simp)]
  have h1 : (sY m j).take m = List.replicate m 'b' := by
    rw [sY]
    exact List.take_left' (by simp)
  have h2 : (sY m j).drop (m + ['a', 'b'].length) = 'b' :: List.replicate j 'a' := by
    rw [sY, show m + ['a', 'b'].length = (List.replicate m 'b').length + 2 by simp,
      List.drop_append]
    rfl
  rw [h1, h2, sX]
  rw [show m + 2 = m + 2 from rfl, List.replicate_add]
  simp [List.replicate_succ, List.append_assoc]

/-- The invariant family is closed under one loop iteration, and the key
is always present, so the loop never exits. -/
theorem replaceLoop_diverges_aux :
    ∀ (n : Nat) (t : List Char),
      ((∃ m j, t = sX m j) ∨ (∃ m j, t = sY m j)) →
      replaceLoop ['a', 'b'] ['b', 'b', 'a', 'a'] n [⟨t, 0⟩] = none := by
  have hcont : ∀ t : List Char, ((∃ m j, t = sX m j) ∨ (∃ m j, t = sY m j)) →
      containsSub ['a', 'b'] (runsText [(⟨t, 0⟩ : Run)]) = true := by
    rintro t (⟨m, j, rfl⟩ | ⟨m, j, rfl⟩) <;>
      simp [containsSub, runsText, find_sX, find_sY]
  intro n
  induction n with
  | zero =>
    intro t ht
    rw [replaceLoop, if_pos (hcont t ht)]
  | succ n ih =>
    intro t ht
    rw [replaceLoop, if_pos (hcont t ht)]
    rcases ht with ⟨m, j, rfl⟩ | ⟨m, j, rfl⟩
    · simp only [step_sX]
      exact ih _ (Or.inr ⟨m, j + 2, rfl⟩)
    · simp only [step_sY]
      exact ih _ (Or.inl ⟨m + 2, j, rfl⟩)

/-! ### Formatters (lines 25-92 of the source) -/

/-- Python string truthiness of the `if field:` guards: nonempty. -/
def truthy (s : String) : Bool := !s.isEmpty

/-- Python `str.replace` for a single-character pattern and replacement
(the only such uses are `replace("/", "-")` and `replace(" ", "_")` on
line 407). -/
def replaceChar (a b : Char) (s : String) : String :=
  String.mk (s.data.map fun c => if c = a then b else c)

/-- Python `str.replace(pat, "")` for a single-character pattern, as in
the dot stripping of lines 27 and 83 and the space stripping of
line 359. -/
def removeChar (a : Char) (s : String) : String :=
  String.mk (s.data.filter fun c => c != a)

/-- Value of a digit string. -/
def digitsToNat (l : List Char) : Nat :=
  l.foldl (fun n c => n * 10 + (c.toNat - Char.toNat '0')) 0

/-- Digit-string parser: nonempty and all ASCII digits. -/
def parseNatDigits (l : List Char) : Option Nat :=
  if !l.isEmpty && l.all Char.isDigit then some (digitsToNat l) else none

/-- Python `str.split(sep)` for a one-character separator. -/
def splitChar (sep : Char) : List Char → List (List Char)
  | [] => [[]]
  | c :: r =>
    let rest := splitChar sep r
    if c = sep then [] :: rest
    else
      match rest with
      | [] => [[c]]
      | h :: t => (c :: h) :: t

/-- Split at the single decimal point, refusing a second one. -/
def splitDot : List Char → Option (List Char × List Char)
  | [] => some ([], [])
  | '.' :: r => if r.contains '.' then none else some ([], r)
  | c :: r => (splitDot r).map fun p => (c :: p.1, p.2)

/-- Modelled external `decimal.Decimal` literal parsing (line 27): an
optional sign, then digits with at most one decimal point and at least
one digit.  Returns the signed mantissa and the number of fraction
digits.  Exponent notation and the special forms `NaN`/`Infinity` of the
library are modelled as unparsable; no claim depends on them. -/
def parseDecimal (l : List Char) : Option (Int × Nat) :=
  let sgnRest : Int × List Char :=
    match l with
    | '-' :: r => (-1, r)
    | '+' :: r => (1, r)
    | r => (1, r)
  match splitDot sgnRest.2 with
  | none => none
  | some (ip, fp) =>
    if (ip ++ fp).all Char.isDigit && !(ip ++ fp).isEmpty then
      some (sgnRest.1 * Int.ofNat (digitsToNat (ip ++ fp)), fp.length)
    else none

/-- Round-half-even division by a positive divisor, the default
`ROUND_HALF_EVEN` used by `Decimal.quantize` (line 27). -/
def halfEvenDiv (n d : Int) : Int :=
  let q := n.fdiv d
  let r := n.fmod d
  if 2 * r < d then q
  else if 2 * r > d then q + 1
  else if q % 2 = 0 then q else q + 1

/-- Cents of `Decimal(v).quantize(Decimal("0.01"))`, under the context
precision 12 set on line 16: quantize raises `InvalidOperation` (so
`br_currency` falls back to the input) when the resulting coefficient
needs more than 12 digits. -/
def quantizeCents (m : Int) (f : Nat) : Option Int :=
  let cents : Int :=
    if f ≤ 2 then m * ((10 : Int) ^ (2 - f))
    else halfEvenDiv m ((10 : Int) ^ (f - 2))
  if cents.natAbs < 10 ^ 12 then some cents else none

/-- Two-digit zero padding (`%02d`). -/
def pad2 (n : Nat) : String := if n < 10 then "0" ++ toString n else toString n

/-- Three-digit zero padding for thousands groups. -/
def pad3 (n : Nat) : String :=
  if n < 10 then "00" ++ toString n
  else if n < 100 then "0" ++ toString n
  else toString n

/-- Thousands grouping, fuelled for structural recursion. -/
def groupNatAux : Nat → Nat → String
  | 0, n => toString n
  | fuel + 1, n =>
    if n < 1000 then toString n
    else groupNatAux fuel (n / 1000) ++ "." ++ pad3 (n % 1000)

/-- Integer-part rendering of `f"{num:,.2f}"` (line 28) with the separator
swap of the same line folded in: the Python code formats with `","`
thousands groups and a `"."` decimal point and then swaps the two
separator characters through a `TEMP` placeholder; the composition yields
`"."`-separated thousands groups, which this renders directly. -/
def groupNat (n : Nat) : String := groupNatAux n n

/-- Full rendering of the quantized cents in the Brazilian convention
(the output convention of line 28 after the separator swap). -/
def formatBrCents (cents : Int) : String :=
  let sign := if cents < 0 then "-" else ""
  let a := cents.natAbs
  sign ++ groupNat (a / 100) ++ "," ++ pad2 (a % 100)

/-- The function `br_currency` (lines 25-30): strip the dots, turn the
comma into a decimal point, parse, quantize to two decimals, format; on
any failure return the input unchanged. -/
def brCurrency (v : String) : String :=
  match parseDecimal ((v.data.filter fun c => c != '.').map
      fun c => if c = ',' then '.' else c) with
  | none => v
  | some mf =>
    match quantizeCents mf.1 mf.2 with
    | none => v
    | some cents => formatBrCents cents

/-- The function `format_cpf` (lines 38-40): keep the digits; when exactly
11 remain, mask as `XXX.XXX.XXX-XX`, else return the input unchanged. -/
def formatCpf (cpf : String) : String :=
  let d := cpf.data.filter Char.isDigit
  if d.length = 11 then
    String.mk (d.take 3) ++ "." ++ String.mk ((d.drop 3).take 3) ++ "." ++
      String.mk ((d.drop 6).take 3) ++ "-" ++ String.mk (d.drop 9)
  else cpf

/-- The function `format_cnpj` (lines 33-35). -/
def formatCnpj (cnpj : String) : String :=
  let d := cnpj.data.filter Char.isDigit
  if d.length = 14 then
    String.mk (d.take 2) ++ "." ++ String.mk ((d.drop 2).take 3) ++ "." ++
      String.mk ((d.drop 5).take 3) ++ "/" ++ String.mk ((d.drop 8).take 4) ++ "-" ++
      String.mk (d.drop 12)
  else cnpj

/-! ### Dates (lines 44-77) -/

/-- A calendar date, the Python `datetime.date` triple. -/
structure PyDate where
  day : Nat
  month : Nat
  year : Nat
deriving DecidableEq

/-- The Portuguese month-name table of lines 44-47. -/
def MESES : List String :=
  ["janeiro", "fevereiro", "março", "abril", "maio", "junho",
   "julho", "agosto", "setembro", "outubro", "novembro", "dezembro"]

/-- Gregorian month lengths, as validated by `datetime.strptime`. -/
def daysInMonth (y m : Nat) : Nat :=
  if m = 2 then (if (y % 4 = 0 ∧ ¬ y % 100 = 0) ∨ y % 400 = 0 then 29 else 28)
  else if m = 4 ∨ m = 6 ∨ m = 9 ∨ m = 11 then 30 else 31

/-- Calendar validation of `datetime.strptime`. -/
def mkDate (d m y : Nat) : Option PyDate :=
  if 1 ≤ m ∧ m ≤ 12 ∧ 1 ≤ d ∧ d ≤ daysInMonth y m then some ⟨d, m, y⟩ else none

/-- One `strptime` day-first pattern (`%d<sep>%m<sep>%Y`). -/
def parseDMY (dsep : Char) (x : List Char) : Option PyDate :=
  match splitChar dsep x with
  | [d, m, y] =>
    match parseNatDigits d, parseNatDigits m, parseNatDigits y with
    | some dd, some mm, some yy =>
      if d.length ≤ 2 ∧ m.length ≤ 2 ∧ y.length = 4 then mkDate dd mm yy else none
    | _, _, _ => none
  | _ => none

/-- The `%Y-%m-%d` pattern. -/
def parseYMD (x : List Char) : Option PyDate :=
  match splitChar '-' x with
  | [y, m, d] =>
    match parseNatDigits d, parseNatDigits m, parseNatDigits y with
    | some dd, some mm, some yy =>
      if d.length ≤ 2 ∧ m.length ≤ 2 ∧ y.length = 4 then mkDate dd mm yy else none
    | _, _, _ => none
  | _ => none

/-- The function `to_date` (lines 49-64), restricted to the string inputs
the form produces: the three explicit `strptime` formats tried in order.
The final generic `dateutil.parser.parse(..., dayfirst=True)` fallback is
an external library, modelled as returning `None`; no claim depends on
it. -/
def toDate (x : String) : Option PyDate :=
  match parseDMY '/' x.data with
  | some d => some d
  | none =>
    match parseDMY '.' x.data with
    | some d => some d
    | none => parseYMD x.data

/-- Python `str.capitalize` as applied to the month names (ASCII first
letter, remainder already lowercase). -/
def capitalizePt (s : String) : String :=
  match s.data with
  | [] => ""
  | c :: r => String.mk (c.toUpper :: r)

/-- The function `data_texto` (lines 66-71), including the `None` check of
line 67. -/
def dataTexto (dt : Option PyDate) (mesAno : Bool) : String :=
  match dt with
  | none => ""
  | some d =>
    if mesAno then capitalizePt (MESES.getD (d.month - 1) "") ++ "/" ++ toString d.year
    else toString d.day ++ " de " ++ MESES.getD (d.month - 1) "" ++ " de " ++ toString d.year

/-- The function `data_formato_ponto` (lines 73-77): `DD.MM.AAAA`. -/
def dataFormatoPonto (dt : Option PyDate) : String :=
  match dt with
  | none => ""
  | some d => pad2 d.day ++ "." ++ pad2 d.month ++ "." ++ toString d.year

/-! ### Number to words (lines 80-92) -/

/-- Modelled external library `num2words(n, lang="pt_BR")` (imported on
line 13, called on lines 84 and 86): Portuguese cardinal words, covering
the range the 12-digit currency bound can feed it.  Only the small values
exercised by the claims are relied upon by any theorem. -/
def unitsPt : Nat → String
  | 0 => "zero"
  | 1 => "um"
  | 2 => "dois"
  | 3 => "três"
  | 4 => "quatro"
  | 5 => "cinco"
  | 6 => "seis"
  | 7 => "sete"
  | 8 => "oito"
  | 9 => "nove"
  | 10 => "dez"
  | 11 => "onze"
  | 12 => "doze"
  | 13 => "treze"
  | 14 => "catorze"
  | 15 => "quinze"
  | 16 => "dezesseis"
  | 17 => "dezessete"
  | 18 => "dezoito"
  | 19 => "dezenove"
  | _ => ""

/-- Tens names of the modelled `num2words`. -/
def tensPtName : Nat → String
  | 2 => "vinte"
  | 3 => "trinta"
  | 4 => "quarenta"
  | 5 => "cinquenta"
  | 6 => "sessenta"
  | 7 => "setenta"
  | 8 => "oitenta"
  | 9 => "noventa"
  | _ => ""

/-- Hundreds names of the modelled `num2words`. -/
def hundredsPtName : Nat → String
  | 1 => "cento"
  | 2 => "duzentos"
  | 3 => "trezentos"
  | 4 => "quatrocentos"
  | 5 => "quinhentos"
  | 6 => "seiscentos"
  | 7 => "setecentos"
  | 8 => "oitocentos"
  | 9 => "novecentos"
  | _ => ""

/-- Words for `n < 100`. -/
def tensPt (n : Nat) : String :=
  if n < 20 then unitsPt n
  else if n % 10 = 0 then tensPtName (n / 10)
  else tensPtName (n / 10) ++ " e " ++ unitsPt (n % 10)

/-- Words for `n < 1000`. -/
def hundredsPt (n : Nat) : String :=
  if n < 100 then tensPt n
  else if n = 100 then "cem"
  else if n % 100 = 0 then hundredsPtName (n / 100)
  else hundredsPtName (n / 100) ++ " e " ++ tensPt (n % 100)

/-- Words for `n < 1000000`. -/
def thousandsPt (n : Nat) : String :=
  if n < 1000 then hundredsPt n
  else
    let t := n / 1000
    let r := n % 1000
    let tw := if t = 1 then "mil" else hundredsPt t ++ " mil"
    if r = 0 then tw
    else if r < 100 ∨ r % 100 = 0 then tw ++ " e " ++ hundredsPt r
    else tw ++ ", " ++ hundredsPt r

/-- Words below a thousand billions. -/
def millionsPt (n : Nat) : String :=
  if n < 1000000 then thousandsPt n
  else
    let m := n / 1000000
    let r := n % 1000000
    let mw := if m = 1 then "um milhão" else thousandsPt m ++ " milhões"
    if r = 0 then mw
    else if r < 100 ∨ r % 100 = 0 then mw ++ " e " ++ thousandsPt r
    else mw ++ ", " ++ thousandsPt r

/-- Signed entry point of the modelled `num2words`. -/
def num2words (i : Int) : String :=
  if i < 0 then "menos " ++ millionsPt i.natAbs else millionsPt i.natAbs

/-- Python `int(str)` (line 83): optional sign, then decimal digits. -/
def parseInt (l : List Char) : Option Int :=
  match l with
  | '-' :: r => (parseNatDigits r).map fun n => -(n : Int)
  | '+' :: r => (parseNatDigits r).map fun n => (n : Int)
  | r => (parseNatDigits r).map fun n => (n : Int)

/-- The function `num_extenso` (lines 80-92).  The `try`/`except` that
returns `str(num)` on any failure is modelled by the `Option` fallback;
failure points are the two-part `split(",")` unpacking and the two `int`
conversions.  `num2words` is the modelled external library above. -/
def numExtenso (num : String) (modo : String) : String :=
  let attempt : Option String :=
    match splitChar ',' (brCurrency num).data with
    | [intStr, decStr] =>
      match parseInt (intStr.filter fun c => c != '.'), parseInt decStr with
      | some inteiro, some dec =>
        let extI := num2words inteiro
        if dec ≠ 0 then
          let extD := num2words dec
          if modo = "uif" then
            some (extI ++ " " ++ (if inteiro = 1 then "inteiro" else "inteiros") ++
              ", e " ++ extD ++ " " ++ (if dec = 1 then "centésimo" else "centésimos"))
          else some (extI ++ " vírgula " ++ extD)
        else some extI
      | _, _ => none
    | _ => none
  attempt.getD num

/-- The download file name of line 407:
`f"Termo_Ajuste_{(termo_num or 'novo').replace('/', '-')}_{(empresa_nome or 'empresa').replace(' ', '_')}.docx"`. -/
def nomeArquivo (termo_num empresa_nome : String) : String :=
  "Termo_Ajuste_" ++ replaceChar '/' '-' (if termo_num = "" then "novo" else termo_num) ++
    "_" ++ replaceChar ' ' '_' (if empresa_nome = "" then "empresa" else empresa_nome) ++
    ".docx"

/-- Restatement of the file-name sentence of spec section 6, for the C10
refinement: `Termo_Ajuste_` + (the term number, or `novo` when empty) +
`_` + (the company name, or `empresa` when empty) + `.docx`, with every
slash of the term number replaced by a hyphen and every space of the
company name by an underscore. -/
def nomeArquivoSpec (termo_num empresa_nome : String) : String :=
  "Termo_Ajuste_" ++ (if termo_num = "" then "novo" else replaceChar '/' '-' termo_num) ++
    "_" ++ (if empresa_nome = "" then "empresa" else replaceChar ' ' '_' empresa_nome) ++
    ".docx"

/-! ### The placeholder map builder (lines 263-374) -/

/-- The form fields of the interface (lines 213-258), all free-text
strings (the porte `selectbox` value is also a string). -/
structure FormInput where
  termo_num : String
  empresa_nome : String
  empresa_cnpj : String
  empresa_cgcte : String
  empresa_endereco : String
  proa_num : String
  proa_data : String
  representante_nome : String
  representante_cpf : String
  parecer_num : String
  parecer_data : String
  doe_data : String
  empresa_porte : String
  cidade : String
  corede : String
  qtd_empregos : String
  pontos_fundopem : String
  set_estrategicos : String
  intensidade_tec : String
  perc_integrar : String
  pontos_idese : String
  pontos_setor : String
  valor_total : String
  valor_apres_inicial : String
  valor_inicial_aceito : String
  equips_24 : String
  limite_max_liberado : String
  valor_liberado_fruicao : String
  data_inicio : String
  data_final_fruicao : String
  mes_regularidade : String
deriving DecidableEq

/-- Python `dict` assignment `mp[k] = v` on an insertion-ordered map:
overwrite in place when the key is present (keeping its position), else
append. -/
def dictInsert (k v : String) (m : List (String × String)) : List (String × String) :=
  if m.any fun p => p.1 == k then m.map fun p => if p.1 == k then (k, v) else p
  else m ++ [(k, v)]

/-- The `if field: mp[key] = value` pattern of the builder. -/
def condInsert (c : Bool) (k v : String) (m : List (String × String)) :
    List (String × String) :=
  if c then dictInsert k v m else m

/-- Python `mp.pop(k, None)` (lines 343-344): drop the entry of key `k`. -/
def dictPop (k : String) (m : List (String × String)) : List (String × String) :=
  m.filter fun p => !(p.1 == k)

/-- The placeholder map `mp` as fully assembled by lines 265-374, in
insertion order.  Values that the Python code computes inside an `if` are
computed unconditionally here, which is observationally identical since
they are only inserted under the same condition. -/
def buildMap (i : FormInput) : List (String × String) :=
  let mp : List (String × String) := []
  let fmt_total := brCurrency i.valor_total
  let mp := condInsert (truthy i.valor_total)
    "693.224,32 UIF/RS (seiscentos e noventa e três mil, duzentos e vinte e quatro inteiros, e trinta e dois centésimos de Unidades de Incentivo do FUNDOPEM/RS)"
    (fmt_total ++ " UIF/RS (" ++ numExtenso fmt_total "uif" ++
      " de Unidades de Incentivo do FUNDOPEM/RS)") mp
  let fmt_apres := brCurrency i.valor_apres_inicial
  let mp := condInsert (truthy i.valor_apres_inicial)
    "193.874,41 UIF/RS (cento e noventa e três mil, oitocentos e setenta e quatro inteiros, e quarenta e um centésimos de Unidades de Incentivo do FUNDOPEM/RS)"
    (fmt_apres ++ " UIF/RS (" ++ numExtenso fmt_apres "uif" ++
      " de Unidades de Incentivo do FUNDOPEM/RS)") mp
  let mp := condInsert (truthy i.valor_apres_inicial) "=g10" fmt_apres mp
  let fmt_aceito := brCurrency i.valor_inicial_aceito
  let mp := condInsert (truthy i.valor_inicial_aceito)
    "159.123,22 UIF/RS (cento e cinquenta e nove mil, cento e vinte e três inteiros, e vinte e dois centésimos de Unidades de Incentivo do FUNDOPEM/RS)"
    (fmt_aceito ++ " UIF/RS (" ++ numExtenso fmt_aceito "uif" ++
      " de Unidades de Incentivo do FUNDOPEM/RS)") mp
  let mp := condInsert (truthy i.valor_inicial_aceito) "=g11" fmt_aceito mp
  let fmt_equip := brCurrency i.equips_24
  let mp := condInsert (truthy i.equips_24)
    "Do valor estabelecido no item 2.3.1 desta Cláusula, o montante de 113.874,41 UIF/RS (cento e noventa e três mil, oitocentos e setenta e quatro inteiros, e quarenta e um centésimos de Unidades de Incentivo do FUNDOPEM/RS) contempla os investimentos realizados em equipamentos."
    ("Do valor estabelecido no item 2.3.1 desta Cláusula, o montante de " ++ fmt_equip ++
      " UIF/RS (" ++ numExtenso fmt_equip "uif" ++
      " de Unidades de Incentivo do FUNDOPEM/RS) contempla os investimentos realizados em equipamentos.") mp
  let fmt_limite := brCurrency i.limite_max_liberado
  let mp := condInsert (truthy i.limite_max_liberado)
    "239.509,00 UIF/RS (duzentos e trinta e nove mil, e quinhentos e nove inteiros de Unidades de Incentivo do FUNDOPEM/RS)"
    (fmt_limite ++ " UIF/RS (" ++ numExtenso fmt_limite "uif" ++
      " de Unidades de Incentivo do FUNDOPEM/RS)") mp
  let mp := condInsert (truthy i.limite_max_liberado) "=g8" fmt_limite mp
  let fmt_fruicao := brCurrency i.valor_liberado_fruicao
  let mp := condInsert (truthy i.valor_liberado_fruicao)
    "62.299,92 UIF/RS (sessenta e dois mil, duzentos e noventa e nove inteiros, e noventa e dois centésimos de Unidades de Incentivo do FUNDOPEM/RS)"
    (fmt_fruicao ++ " UIF/RS (" ++ numExtenso fmt_fruicao "uif" ++
      " de Unidades de Incentivo do FUNDOPEM/RS)") mp
  let mp := condInsert (truthy i.valor_liberado_fruicao) "=g21" fmt_fruicao mp
  let mp := condInsert (truthy i.pontos_fundopem) "#pontos# (sessenta) pontos"
    (i.pontos_fundopem ++ " (" ++ numExtenso i.pontos_fundopem "geral" ++ ") pontos") mp
  let perc_ext := numExtenso i.perc_integrar "percent" ++ " por cento"
  let mp := condInsert (truthy i.perc_integrar)
    "#integrar# (trinta e quatro vírgula cinquenta e cinco por cento)"
    (i.perc_integrar ++ "% (" ++ perc_ext ++ ")") mp
  let mp := condInsert (truthy i.perc_integrar) "#integrar#%" (i.perc_integrar ++ "%") mp
  let mp := condInsert (truthy i.perc_integrar) "#integrar#" i.perc_integrar mp
  let mp := condInsert (truthy i.qtd_empregos) "#emp#" i.qtd_empregos mp
  let mp := condInsert (truthy i.qtd_empregos) "(duzentos e noventa e sete)"
    ("(" ++ numExtenso i.qtd_empregos "geral" ++ ")") mp
  let mp := condInsert (truthy i.qtd_empregos) "(duzentos e noventa e quatro)"
    ("(" ++ numExtenso i.qtd_empregos "geral" ++ ")") mp
  let mp := dictInsert "#xx/aaaa#" i.termo_num mp
  let mp := dictInsert "#EMPRESA#" i.empresa_nome.toUpper mp
  let mp := dictInsert "#ENDERECO#" i.empresa_endereco mp
  let mp := dictInsert "#XX.XXX.XXX/0001-XX#" (formatCnpj i.empresa_cnpj) mp
  let mp := dictInsert "#REPRESENTANTE#" i.representante_nome mp
  let mp := dictInsert "#CPF#" (formatCpf i.representante_cpf) mp
  let mp := dictInsert "#cpf#" (formatCpf i.representante_cpf) mp
  let mp := dictInsert "#proa#" i.proa_num mp
  let mp := dictInsert "#cidade#" i.cidade mp
  let mp := dictInsert "#corede#" i.corede mp
  let mp := dictInsert "#MUNICIPIO_E_COREDE#"
    (if truthy i.cidade && truthy i.corede then
      i.cidade ++ "/RS (COREDE: " ++ i.corede ++ ")" else "") mp
  let mp := dictInsert "#idese#" i.pontos_idese mp
  let mp := dictInsert "#setint#" i.pontos_setor mp
  let mp := dictInsert "#set#" i.set_estrategicos mp
  let mp := dictInsert "#it#" i.intensidade_tec mp
  let mp := dictInsert "#porte#" i.empresa_porte mp
  let mp := dictInsert "#cgcte#" i.empresa_cgcte mp
  let mp := dictInsert "#pontos#" i.pontos_fundopem mp
  let mp := dictInsert "CPF XXX.XXX.XXX-XX" ("CPF " ++ formatCpf i.representante_cpf) mp
  let mp := dictPop "#CPF#" mp
  let mp := dictPop "#cpf#" mp
  let dt_inicio := toDate i.data_inicio
  let dt_final := toDate i.data_final_fruicao
  let dt_parecer := toDate i.parecer_data
  let dt_doe := toDate i.doe_data
  let dt_proa := toDate i.proa_data
  let mp := dictInsert "#inicio#" (dataFormatoPonto dt_inicio) mp
  let mp := dictInsert "#final#" (dataTexto dt_final true) mp
  let mp := dictInsert "#final2#" (removeChar ' ' (dataTexto dt_final true)) mp
  let mp := dictInsert "#regularidade#" i.mes_regularidade mp
  let mp := condInsert (truthy i.parecer_num && dt_parecer.isSome && dt_doe.isSome)
    "Parecer nº xxx/aaaa, de dd.mm.aaaa (DOE de dd.mm.aaaa)"
    ("Parecer nº " ++ i.parecer_num ++ ", de " ++ dataFormatoPonto dt_parecer ++
      " (DOE de " ++ dataFormatoPonto dt_doe ++ ")") mp
  let mp := condInsert (truthy i.proa_num && dt_proa.isSome)
    "e na documentação que instrui o processo administrativo nº #proa#, de 03 de setembro de 2024, que passam a fazer parte integrante deste instrumento."
    ("e na documentação que instrui o processo administrativo nº " ++ i.proa_num ++
      ", de " ++ dataFormatoPonto dt_proa ++
      ", que passam a fazer parte integrante deste instrumento.") mp
  mp

/-! ### Lookup lemmas for the map operations -/

theorem lookup_cons_ne (k a b : String) (t : List (String × String)) (h : ¬ k = a) :
    List.lookup k ((a, b) :: t) = List.lookup k t := by
  rw [List.lookup_cons, show (k == a) = false by simp [h]]

theorem lookup_cons_eq (k b : String) (t : List (String × String)) :
    List.lookup k ((k, b) :: t) = some b := by
  rw [List.lookup_cons, show (k == k) = true by simp]

theorem lookup_not_mem (k : String) :
    ∀ m : List (String × String), m.any (fun p => p.1 == k) = false →
      List.lookup k m = none := by
  intro m
  induction m with
  | nil => intro _; rfl
  | cons p t ih =>
    intro h
    obtain ⟨a, b⟩ := p
    simp only [List.any_cons, Bool.or_eq_false_iff, beq_eq_false_iff_ne] at h
    rw [lookup_cons_ne k a b t (fun he => h.1 he.symm)]
    exact ih (by simpa using h.2)

theorem lookup_map_overwrite_ne (k k' v : String) (hk : ¬ k = k') :
    ∀ m : List (String × String),
      List.lookup k (m.map fun p => if p.1 == k' then (k', v) else p) =
        List.lookup k m := by
  intro m
  induction m with
  | nil => rfl
  | cons p t ih =>
    obtain ⟨a, b⟩ := p
    by_cases hp : a = k'
    · simp only [List.map_cons, if_pos (show ((a, b).1 == k') = true by simp [hp])]
      rw [lookup_cons_ne k k' v _ hk, lookup_cons_ne k a b t (by rw [hp]; exact hk), ih]
    · simp only [List.map_cons, if_neg (show ¬ ((a, b).1 == k') = true by simp [hp])]
      by_cases hk2 : k = a
      · subst hk2
        rw [lookup_cons_eq, lookup_cons_eq]
      · rw [lookup_cons_ne k a b _ hk2, lookup_cons_ne k a b t hk2, ih]

theorem lookup_map_overwrite (k' v : String) :
    ∀ m : List (String × String), m.any (fun p => p.1 == k') = true →
      List.lookup k' (m.map fun p => if p.1 == k' then (k', v) else p) = some v := by
  intro m
  induction m with
  | nil => intro h; simp at h
  | cons p t ih =>
    intro h
    obtain ⟨a, b⟩ := p
    by_cases hp : a = k'
    · simp only [List.map_cons, if_pos (show ((a, b).1 == k') = true by simp [hp])]
      rw [lookup_cons_eq]
    · simp only [List.map_cons, if_neg (show ¬ ((a, b).1 == k') = true by simp [hp])]
      rw [lookup_cons_ne k' a b _ (fun he => hp he.symm)]
      apply ih
      simpa [hp] using h

theorem lookup_dictInsert (k k' v : String) (m : List (String × String)) :
    List.lookup k (dictInsert k' v m) = if k = k' then some v else List.lookup k m := by
  unfold dictInsert
  by_cases hk : k = k'
  · subst hk
    rw [if_pos rfl]
    split
    · rename_i hany
      exact lookup_map_overwrite k v m hany
    · rename_i hany
      rw [List.lookup_append,
        lookup_not_mem k m (by revert hany; cases m.any fun p => p.1 == k <;> simp),
        lookup_cons_eq]
      rfl
  · rw [if_neg hk]
    split
    · exact lookup_map_overwrite_ne k k' v hk m
    · rw [List.lookup_append, lookup_cons_ne k k' v [] hk]
      simp

theorem lookup_condInsert (c : Bool) (k k' v : String) (m : List (String × String)) :
    List.lookup k (condInsert c k' v m) =
      if k = k' then (if c then some v else List.lookup k m) else List.lookup k m := by
  unfold condInsert
  cases c with
  | false => simp
  | true => simp [lookup_dictInsert k k' v m]

theorem lookup_dictPop (k k' : String) :
    ∀ m : List (String × String),
      List.lookup k (dictPop k' m) = if k = k' then none else List.lookup k m := by
  intro m
  induction m with
  | nil => simp [dictPop, List.lookup]
  | cons p t ih =>
    obtain ⟨a, b⟩ := p
    unfold dictPop at ih ⊢
    rw [List.filter_cons]
    by_cases ha : a = k'
    · rw [if_neg (show ¬ (!((a, b).1 == k')) = true by simp [ha]), ih]
      by_cases hk : k = k'
      · rw [if_pos hk, if_pos hk]
      · rw [if_neg hk, if_neg hk, lookup_cons_ne k a b t (by rw [ha]; exact hk)]
    · rw [if_pos (show (!((a, b).1 == k')) = true by simp [ha])]
      by_cases hk2 : k = a
      · subst hk2
        have hkk : ¬ k = k' := ha
        rw [lookup_cons_eq, if_neg hkk, lookup_cons_eq]
      · rw [lookup_cons_ne k a b _ hk2, ih, lookup_cons_ne k a b t hk2]

/-! ## Claims -/

/-! ### Claim C1 -/

/-- Paragraph for the C1 counterexample: one run with text `XB`. -/
def parC1 : Paragraph := [⟨"XB".data, 0⟩]

/-- Mapping for the C1 counterexample: `X ↦ A`, then `B ↦ X`. -/
def mapC1 : List (List Char × List Char) := [("X".data, "A".data), ("B".data, "X".data)]

/-- Document for the C1 counterexample. -/
def docC1 : Document := ⟨[parC1], []⟩

/-- Claim C1, counterexample.  The claim says that after `docx_replace`
returns, a key of the map does not occur in the paragraph text unless the
key's own replacement value reintroduces it.  Here `docx_replace` returns
the paragraph text `AX`: the key `X` occurs, yet the value mapped to `X`
is `A`, which does not contain `X` — the reintroduction came from the
later-processed key `B`, whose value is `X`. -/
theorem C1_counterexample :
    docxReplace 4 mapC1 docC1 = some ⟨[[⟨"AX".data, 0⟩]], []⟩ ∧
    containsSub "X".data (runsText [⟨"AX".data, 0⟩]) = true ∧
    containsSub "X".data "A".data = false :=
  ⟨by rfl, by rfl, by rfl⟩

/-- Claim C1 as amended: when the per-key `while` loop of
`replace_in_paragraph` (line 109) returns, the key does not occur in the
concatenated run text of that paragraph — in particular a paragraph that
contained the key twice has both occurrences replaced by the one call.
Only after a later key of the same map is processed can the key reappear
(see the counterexample). -/
theorem C1_amended_theorem (key value : List Char) (fuel : Nat)
    (runs out : Paragraph) (h : replaceLoop key value fuel runs = some out) :
    containsSub key (runsText out) = false :=
  replaceLoop_not_contains key value fuel runs out h

/-- Witness for C1 at a paragraph containing the key `ab` twice: one call
replaces both occurrences (`abcab` becomes `zcz`) and the loop returns
with the key eliminated. -/
theorem C1_witness : containsSub "ab".data (runsText [⟨"zcz".data, 7⟩]) = false :=
  C1_amended_theorem "ab".data "z".data 5 [⟨"abcab".data, 7⟩] [⟨"zcz".data, 7⟩] (by rfl)

/-! ### Claim C2 -/

/-- The three-run paragraph of the cross-run test. -/
def parC2 : Paragraph := [⟨"AB".data, 1⟩, ⟨"CD".data, 2⟩, ⟨"EF".data, 3⟩]

/-- The mapping of the cross-run test: `BCDE ↦ X`. -/
def mapC2 : List (List Char × List Char) := [("BCDE".data, "X".data)]

/-- Claim C2, counterexample.  The claim asserts that after substituting
`BCDE ↦ X` in runs `AB | CD | EF` the first run text is `A`; the code
instead fills the remaining space of the first run with the replacement
(lines 144-146), so the first run text is `AX`, not `A`. -/
theorem C2_counterexample :
    (replaceInParagraph 3 mapC2 parC2).map (fun rs => rs.map Run.text) =
      some ["AX".data, "".data, "F".data] ∧
    ¬ ("AX".data = "A".data) :=
  ⟨by rfl, by decide⟩

/-- Claim C2 as amended: after the substitution, the first run text is
`AX` (the replacement is absorbed by the first run's remaining space per
the distribution rule), the middle run text is empty, the last run text
is `F`, the concatenated text is `AXF`, and the three styles are kept. -/
theorem C2_amended_theorem :
    replaceInParagraph 3 mapC2 parC2 =
      some [⟨"AX".data, 1⟩, ⟨"".data, 2⟩, ⟨"F".data, 3⟩] ∧
    (replaceInParagraph 3 mapC2 parC2).map runsText = some "AXF".data :=
  ⟨by rfl, by rfl⟩

/-! ### Claim C3 -/

/-- Claim C3, the frame property of `docx_replace`: substitution changes
only run text fields.  Part one: whenever `docx_replace` returns, no
paragraph is added or removed, and in every paragraph — body or table
cell — the list of run styles is unchanged, so no run is added, removed,
or reordered and no style is touched.  Part two: in a single splice,
every run strictly outside the replaced run span `(run_start_idx,
run_end_idx)` is untouched (text and style byte-identical); the whole
call is a composition of such splices. -/
theorem C3_theorem :
    (∀ (fuel : Nat) (mapping : List (List Char × List Char)) (doc doc' : Document),
      docxReplace fuel mapping doc = some doc' →
        doc'.paragraphs.length = doc.paragraphs.length ∧
        List.Forall₂ (fun p q => q.map Run.style = p.map Run.style)
          doc.paragraphs doc'.paragraphs ∧
        List.Forall₂ (List.Forall₂ (List.Forall₂ (List.Forall₂
          (fun p q => q.map Run.style = p.map Run.style)))) doc.tables doc'.tables) ∧
    (∀ (key value : List Char) (runs runs' : Paragraph) (si ei : Nat),
      spliceOne key value runs = some runs' →
      spliceSpan key runs = some (si, ei) →
        runs'.map Run.style = runs.map Run.style ∧
        ∀ j, j < si ∨ ei < j → runs'[j]? = runs[j]?) := by
  constructor
  · intro fuel mapping doc doc' h
    unfold docxReplace at h
    split at h
    · obtain rfl : doc = doc' := Option.some.inj h
      refine ⟨rfl, List.forall₂_same.mpr fun x _ => rfl, ?_⟩
      exact List.forall₂_same.mpr fun t _ =>
        List.forall₂_same.mpr fun r _ =>
          List.forall₂_same.mpr fun c _ =>
            List.forall₂_same.mpr fun p _ => rfl
    · split at h
      · rename_i ps ts hps hts
        obtain rfl : (⟨ps, ts⟩ : Document) = doc' := Option.some.inj h
        have hp := optionMapAll_forall₂ _ doc.paragraphs ps hps
        have ht := optionMapAll_forall₂ _ doc.tables ts hts
        refine ⟨hp.length_eq.symm, ?_, ?_⟩
        · exact hp.imp fun a b hab => replaceInParagraph_styles fuel mapping a b hab
        · exact ht.imp fun t1 t2 h12 => (optionMapAll_forall₂ _ _ _ h12).imp
            fun r1 r2 hr => (optionMapAll_forall₂ _ _ _ hr).imp
              fun c1 c2 hc => (optionMapAll_forall₂ _ _ _ hc).imp
                fun p1 p2 hp2 => replaceInParagraph_styles fuel mapping p1 p2 hp2
      · simp at h
  · intro key value runs runs' si ei h hspan
    have hs := spliceOne_spec key value runs runs' h
    exact ⟨hs.1, hs.2.2 si ei hspan⟩

/-- Mapping of the C3 witness. -/
def mapW : List (List Char × List Char) := [("B".data, "Y".data)]

/-- Input document of the C3 witness. -/
def docW : Document := ⟨[[⟨"AB".data, 5⟩]], []⟩

/-- Output document of the C3 witness. -/
def docW' : Document := ⟨[[⟨"AY".data, 5⟩]], []⟩

/-- Witness for C3, instantiating both parts at concrete inputs. -/
theorem C3_witness :
    (docW'.paragraphs.length = docW.paragraphs.length ∧
      List.Forall₂ (fun p q => q.map Run.style = p.map Run.style)
        docW.paragraphs docW'.paragraphs ∧
      List.Forall₂ (List.Forall₂ (List.Forall₂ (List.Forall₂
        (fun p q => q.map Run.style = p.map Run.style)))) docW.tables docW'.tables) ∧
    (([(⟨"AY".data, 5⟩ : Run)].map Run.style = [(⟨"AB".data, 5⟩ : Run)].map Run.style) ∧
      ∀ j, j < 0 ∨ 0 < j →
        ([(⟨"AY".data, 5⟩ : Run)])[j]? = ([(⟨"AB".data, 5⟩ : Run)])[j]?) :=
  ⟨C3_theorem.1 2 mapW docW docW' (by rfl),
   C3_theorem.2 "B".data "Y".data [⟨"AB".data, 5⟩] [⟨"AY".data, 5⟩] 0 0 (by rfl) (by rfl)⟩

/-! ### Claim C4 -/

/-- Claim C4: with an empty placeholder map, `docx_replace` returns the
document unmodified (the early return of lines 100-101), so every
paragraph's concatenated run text is identical to the input. -/
theorem C4_theorem (fuel : Nat) (doc : Document) : docxReplace fuel [] doc = some doc := rfl

/-! ### Claim C5 -/

/-- Claim C5, counterexample.  The claim asserts the inner `while` loop
terminates whenever no replacement value contains its own key.  Take the
key `ab` and the value `bbaa`: the value does not contain the key, yet on
the single-run paragraph `aab` the loop never exits — each splice
re-creates an occurrence of `ab` across a chunk boundary (the text walks
through `b^m·aab·a^j` and `b^m·abb·a^j` shapes forever), so the loop of
line 109 runs forever no matter how much fuel is granted. -/
theorem C5_counterexample :
    containsSub "ab".data "bbaa".data = false ∧
    ∀ fuel : Nat, replaceLoop "ab".data "bbaa".data fuel [⟨"aab".data, 0⟩] = none := by
  refine ⟨by rfl, fun fuel => ?_⟩
  have haab : ("aab".data : List Char) = sX 0 0 := by rfl
  have hab : ("ab".data : List Char) = ['a', 'b'] := rfl
  have hv : ("bbaa".data : List Char) = ['b', 'b', 'a', 'a'] := rfl
  rw [haab, hab, hv]
  exact replaceLoop_diverges_aux fuel _ (Or.inl ⟨0, 0, rfl⟩)

/-- Claim C5 as amended: the stated precondition is not sufficient (see
the counterexample); the loop does terminate whenever the replacement
value is strictly shorter than its key, because each splice then strictly
shrinks the concatenated paragraph text: any fuel beyond the initial text
length makes the fuelled loop return. -/
theorem C5_amended_theorem (key value : List Char) (runs : Paragraph) (fuel : Nat)
    (h1 : value.length < key.length) (h2 : (runsText runs).length < fuel) :
    (replaceLoop key value fuel runs).isSome = true :=
  replaceLoop_isSome_of_short key value h1 fuel runs h2

/-- Witness for C5: key `ab`, value `z`, paragraph `xaby`, fuel 5. -/
theorem C5_witness :
    "z".data.length < "ab".data.length ∧
    (runsText [⟨"xaby".data, 0⟩]).length < 5 ∧
    (replaceLoop "ab".data "z".data 5 [⟨"xaby".data, 0⟩]).isSome = true :=
  ⟨by decide, by decide, C5_amended_theorem "ab".data "z".data [⟨"xaby".data, 0⟩] 5
    (by decide) (by decide)⟩

/-! ### Claim C6 -/

/-- Claim C6, evaluation at the failing input.  The claim (with the spec
and with the whole-number boilerplate sentences of the template, compare
the key of line 296, "… e quinhentos e nove inteiros de Unidades …")
expects `num_extenso("1,00")` in currency mode to say "um inteiro"; the
code's `if dec:` branch (line 85) skips the "inteiro(s)" word entirely
when the cents are zero and returns just "um" (line 90).  The `"2,05"`
case and the fallback behaviour match the claim. -/
theorem C6_theorem :
    numExtenso "1,00" "uif" = "um" ∧
    numExtenso "2,05" "uif" = "dois inteiros, e cinco centésimos" ∧
    numExtenso "abc" "uif" = "abc" :=
  ⟨by rfl, by rfl, by rfl⟩

/-! ### Claim C7 -/

/-- Input for the C7 counterexample: every field empty except the COREDE. -/
def inpC7 : FormInput :=
  ⟨"", "", "", "", "", "", "", "", "", "", "", "", "", "", "Serra", "", "", "", "", "",
   "", "", "", "", "", "", "", "", "", "", ""⟩

/-- Claim C7, counterexample.  The claim says the composite key
`#MUNICIPIO_E_COREDE#` is added only when both the city and the COREDE
are non-empty and that otherwise the map contains no entry for it.  With
an empty city the builder still inserts the key — the bulk `mp.update` of
line 332 is unconditional — mapping it to the empty string, so the marker
in the template is replaced by empty text rather than left untouched. -/
theorem C7_counterexample :
    List.lookup "#MUNICIPIO_E_COREDE#" (buildMap inpC7) = some "" ∧
    truthy inpC7.cidade = false :=
  ⟨by rfl, by rfl⟩

/-- Claim C7 as amended: the finished map always contains the key
`#MUNICIPIO_E_COREDE#`; its value is `<cidade>/RS (COREDE: <corede>)`
when both the city and the COREDE inputs are non-empty and the empty
string otherwise (so a missing constituent empties the marker rather
than leaving it untouched). -/
theorem C7_amended_theorem (i : FormInput) :
    List.lookup "#MUNICIPIO_E_COREDE#" (buildMap i) =
      some (if truthy i.cidade && truthy i.corede then
        i.cidade ++ "/RS (COREDE: " ++ i.corede ++ ")" else "") := by
  simp +decide [buildMap, lookup_condInsert, lookup_dictInsert, lookup_dictPop]

/-! ### Claim C8 -/

/-- Claim C8: for every input, the finished placeholder map maps the
boilerplate key `CPF XXX.XXX.XXX-XX` to the label `CPF ` followed by the
formatted representative CPF, and contains neither bare marker `#CPF#`
nor `#cpf#`: the builder first inserts the boilerplate key (line 342) and
afterwards pops both bare markers (lines 343-344), and no later insertion
reintroduces them. -/
theorem C8_theorem (i : FormInput) :
    List.lookup "CPF XXX.XXX.XXX-XX" (buildMap i) =
      some ("CPF " ++ formatCpf i.representante_cpf) ∧
    List.lookup "#CPF#" (buildMap i) = none ∧
    List.lookup "#cpf#" (buildMap i) = none := by
  refine ⟨?_, ?_, ?_⟩ <;>
    simp +decide [buildMap, lookup_condInsert, lookup_dictInsert, lookup_dictPop]

/-! ### Claim C9 -/

/-- Claim C9: `br_currency` normalizes `1234567,89` to `1.234.567,89`
(thousands separator `.`, decimal separator `,`, two decimals), and
returns the unparsable input `abc` unchanged instead of raising. -/
theorem C9_theorem :
    brCurrency "1234567,89" = "1.234.567,89" ∧ brCurrency "abc" = "abc" :=
  ⟨by rfl, by rfl⟩

/-! ### Claim C10 -/

/-- Claim C10: the generated download name of line 407 agrees, for every
term number and company name, with the spec formula
`Termo_Ajuste_` + (term number or `novo`) + `_` + (company or `empresa`)
+ `.docx`, slashes in the term number turned into hyphens and spaces in
the company name into underscores. -/
theorem C10_theorem (termo_num empresa_nome : String) :
    nomeArquivo termo_num empresa_nome = nomeArquivoSpec termo_num empresa_nome := by
  have h1 : replaceChar '/' '-' "novo" = "novo" := by decide
  have h2 : replaceChar ' ' '_' "empresa" = "empresa" := by decide
  unfold nomeArquivo nomeArquivoSpec
  by_cases ht : termo_num = "" <;> by_cases he : empresa_nome = "" <;>
    simp [ht, he, h1, h2]

end Fundopem
